import Mathlib

/-!
Shallow embedding of `jhsiao/scope.py` (class `Scope`).

Modelling choices, all read off the source:
* A Python dict of local bindings is a `Dict V`: its key set plus a value
  lookup (the source only iterates keys, tests membership, and indexes
  `locs[k]` for keys known to be present).
* Dicts are live, externally mutated objects; an operation therefore takes
  a `heap : DictRef → Dict V` giving the current contents of every dict at
  the moment of the call.  `DictRef` is an address.
* `self.pframe` is `None`, a caller frame (holding the address of its
  `f_locals` dict), or `self` (when an explicit `state` dict was given).
* Exceptions the interpreter would raise are constructors of `PyErr`:
  the explicit `raise Exception(...)` in `__enter__`, the `AttributeError`
  from `None.f_locals` / `None.update`, and the `TypeError` from passing
  `None` where an iterable is needed (the last is unreachable through the
  public API; it is kept so no case of the source is stubbed).
* Each method returns the post-call object state together with its outcome,
  so that absence of mutation is a provable statement, not a convention.
* Python set iteration order is unspecified; the generator in `items` is
  modelled as the traversal it yields, over keys in a fixed (sorted) order.
  Every claim about `items` is order-independent.
-/

abbrev DictRef := Nat

/-- A Python dict of name bindings: its key set and the value lookup. -/
structure Dict (V : Type) where
  keys : Finset String
  get : String → V

/-- The `extras` constructor argument: a single string or a collection of names. -/
inductive Extras where
  | str (n : String)
  | coll (c : Finset String)
deriving DecidableEq

/-- Exceptions raised by the source code. -/
inductive PyErr where
  /-- the explicit `raise Exception('failed to get current frame and no state given.')` -/
  | exceptionNoFrame
  /-- `AttributeError`: attribute access (`.f_locals`, `.update`) on `None` -/
  | attributeNone
  /-- `TypeError`: `None` used where an iterable/set is required -/
  | typeErrorNone
deriving DecidableEq

/-- What `self.pframe` can hold besides `None`: a caller frame (identified by
the address of its `f_locals` dict) or `self`. -/
inductive PFrame where
  | frame (r : DictRef)
  | selfRef
deriving DecidableEq

/-- The fields of a `Scope` object. -/
structure Scope (V : Type) where
  ignore_ : Bool
  extras : Option Extras
  f_locals : Option DictRef
  pframe : Option PFrame
  starters : Option (Finset String)

/-- Result of `inspect.currentframe()` inside `__enter__`: absent, or a frame
whose `f_back` (the caller frame, identified by its locals dict) may itself
be absent. -/
structure CurFrame where
  f_back : Option DictRef

/-- The reflection environment `__enter__` runs in. -/
structure EnterEnv where
  currentFrame : Option CurFrame

variable {V : Type}

/-- Embeds `Scope.__init__(self, extras=None, state=None, ignore_=True)`. -/
def Scope.init (extras : Option Extras) (state : Option DictRef) (ig : Bool) :
    Scope V :=
  { ignore_ := ig, extras := extras, f_locals := state,
    pframe := none, starters := none }

/-- Embeds `self._starters.add(extras)` / `self._starters.update(extras)`
guarded by `if extras is not None` and `isinstance(extras, str)`. -/
def mergeExtras (st : Finset String) : Option Extras → Finset String
  | none => st
  | some (.str n) => insert n st
  | some (.coll c) => st ∪ c

/-- Embeds `Scope.__enter__`.  `env` is what `inspect.currentframe()` returns;
`heap` gives the current contents of every dict.  Returns the post-call state
and the outcome; on success the returned value is `self` (the mutated state). -/
def Scope.enter (s : Scope V) (env : EnterEnv) (heap : DictRef → Dict V) :
    Scope V × Except PyErr (Scope V) :=
  match s.f_locals with
  | none =>
    match env.currentFrame with
    | none => (s, .error .exceptionNoFrame)
    | some fr =>
      match fr.f_back with
      | none =>
        -- `self.pframe = here.f_back` stores `None`; the following
        -- `set(self.pframe.f_locals)` then raises `AttributeError`.
        ({ s with pframe := none }, .error .attributeNone)
      | some r =>
        let s2 : Scope V :=
          { s with pframe := some (.frame r),
                   starters := some (mergeExtras (heap r).keys s.extras) }
        (s2, .ok s2)
  | some r =>
    -- `self.pframe = self`, so `self.pframe.f_locals` is the `state` dict.
    let s2 : Scope V :=
      { s with pframe := some .selfRef,
               starters := some (mergeExtras (heap r).keys s.extras) }
    (s2, .ok s2)

/-- Exception information active when a `with` block is left. -/
structure ExcInfo where
  exctp : String
  msg : String

/-- Embeds `Scope.__exit__(self, exctp, exc, tb)`: sets `self.pframe = None`
and returns `None`, i.e. falsy (`false` here): the exception is not suppressed. -/
def Scope.exit (s : Scope V) (_exc : Option ExcInfo) : Scope V × Bool :=
  ({ s with pframe := none }, false)

/-- The `with`-statement epilogue: runs `__exit__` and re-raises the pending
exception unless `__exit__` returned a truthy value. -/
def runExit (s : Scope V) (exc : Option ExcInfo) : Scope V × Option ExcInfo :=
  let r := s.exit exc
  (r.1, if r.2 then none else exc)

/-- Embeds the attribute chain `self.pframe.f_locals`: the current contents of
the observed dict, or the exception the interpreter raises. -/
def Scope.resolveLocs (s : Scope V) (heap : DictRef → Dict V) :
    Except PyErr (Dict V) :=
  match s.pframe with
  | none => .error .attributeNone
  | some (.frame r) => .ok (heap r)
  | some .selfRef =>
    match s.f_locals with
    | some r => .ok (heap r)
    | none => .error .typeErrorNone

/-- Embeds `k.startswith('_')` with its single-character prefix: true exactly
when the first character of `k` is `_` (false on the empty string). -/
def startsWithUnderscore (k : String) : Bool :=
  match k.data with
  | [] => false
  | c :: _ => c == '_'

/-- Embeds the filter `not (ignore_ and k.startswith('_'))` used by both
`diff` and `items`. -/
def keepName (ig : Bool) (k : String) : Bool :=
  !(ig && startsWithUnderscore k)

/-- Embeds `Scope.update`: `self._starters.update(self.pframe.f_locals)`. -/
def Scope.update (s : Scope V) (heap : DictRef → Dict V) :
    Scope V × Except PyErr Unit :=
  match s.resolveLocs heap with
  | .error e => (s, .error e)
  | .ok locs =>
    match s.starters with
    | none => (s, .error .attributeNone)
    | some st => ({ s with starters := some (st ∪ locs.keys) }, .ok ())

/-- Embeds `Scope.diff`: the set comprehension filters keys first, then
`.difference(self._starters)` removes the baseline. -/
def Scope.diff (s : Scope V) (heap : DictRef → Dict V) :
    Scope V × Except PyErr (Finset String) :=
  match s.resolveLocs heap with
  | .error e => (s, .error e)
  | .ok locs =>
    match s.starters with
    | none => (s, .error .typeErrorNone)
    | some st =>
      (s, .ok ((locs.keys.filter (fun k => keepName s.ignore_ k = true)) \ st))

/-- Embeds the traversal of the generator `Scope.items`:
`for k in set(locs).difference(self._starters)` (difference first), then the
per-element filter, yielding `(k, locs[k])` with the value looked up in the
observed dict.  Key order is canonicalised to sorted; Python set order is
unspecified. -/
def Scope.items (s : Scope V) (heap : DictRef → Dict V) :
    Scope V × Except PyErr (List (String × V)) :=
  match s.resolveLocs heap with
  | .error e => (s, .error e)
  | .ok locs =>
    match s.starters with
    | none => (s, .error .typeErrorNone)
    | some st =>
      (s, .ok (((locs.keys \ st).sort (· ≤ ·)).filterMap
        (fun k => if keepName s.ignore_ k then some (k, locs.get k) else none)))

/-! Concrete objects used by the witness theorems.  Values live in
`Option Nat`, with `none` playing the role of Python `None`. -/

/-- A dict binding `x` to `1` and `y` to Python `None`. -/
def dXY : Dict (Option Nat) :=
  ⟨{"x", "y"}, fun k => if k = "x" then some 1 else none⟩

/-- A dict with the same keys as `dXY` but every value `None`. -/
def dXYnone : Dict (Option Nat) :=
  ⟨{"x", "y"}, fun _ => none⟩

/-- A dict binding `x` to `7` only. -/
def dX7 : Dict (Option Nat) :=
  ⟨{"x"}, fun _ => some 7⟩

/-- A heap in which every dict address holds `dXY`. -/
def heapXY : DictRef → Dict (Option Nat) := fun _ => dXY

/-- A heap in which every dict address holds `dXYnone`. -/
def heapXYnone : DictRef → Dict (Option Nat) := fun _ => dXYnone

/-- A heap in which every dict address holds `dX7`. -/
def heapX7 : DictRef → Dict (Option Nat) := fun _ => dX7

/-- A freshly constructed tracker: `Scope()`. -/
def sFresh : Scope (Option Nat) := Scope.init none none true

/-- A tracker observing the explicit dict at address `0`, already entered,
with baseline `{y}`. -/
def sActive : Scope (Option Nat) :=
  { ignore_ := true, extras := none, f_locals := some 0,
    pframe := some .selfRef, starters := some {"y"} }

/-- An environment in which `inspect.currentframe()` returns `None`. -/
def envNoCur : EnterEnv := ⟨none⟩

/-- An environment in which the current frame exists but has no caller frame. -/
def envNoBack : EnterEnv := ⟨some ⟨none⟩⟩

/-- An environment in which the caller frame's locals dict is at address `0`. -/
def envBack0 : EnterEnv := ⟨some ⟨some 0⟩⟩

/-! Theorems, one per claim. -/

/-- C1: for every tracker, calling `refresh()`/`diff()`/`items()` outside an
active scope — before `enter()` (a freshly constructed tracker) or after
`exit()` (which leaves `pframe = None`) — raises rather than returning a
result: the attribute access `self.pframe.f_locals` fails on `None` (the
behaviour the spec names `InvalidStateError`). -/
theorem scope_ops_outside_active_scope_fail
    (extras : Option Extras) (state : Option DictRef) (ig : Bool)
    (s : Scope V) (heap : DictRef → Dict V) (exc : Option ExcInfo)
    (h : s.pframe = none) :
    (Scope.init (V := V) extras state ig).pframe = none ∧
    ((s.exit exc).1).pframe = none ∧
    (s.update heap).2 = .error .attributeNone ∧
    (s.diff heap).2 = .error .attributeNone ∧
    (s.items heap).2 = .error .attributeNone := by
  refine ⟨rfl, rfl, ?_, ?_, ?_⟩ <;>
    simp [Scope.update, Scope.diff, Scope.items, Scope.resolveLocs, h]

/-- C1 witness: the fresh tracker `Scope()` is inactive and all three
operations fail on it. -/
theorem scope_ops_outside_active_scope_fail_wit :
    sFresh.pframe = none ∧
    ((Scope.init (V := Option Nat) none none true).pframe = none ∧
     ((sFresh.exit none).1).pframe = none ∧
     (sFresh.update heapXY).2 = .error .attributeNone ∧
     (sFresh.diff heapXY).2 = .error .attributeNone ∧
     (sFresh.items heapXY).2 = .error .attributeNone) :=
  ⟨rfl, scope_ops_outside_active_scope_fail none none true sFresh heapXY none rfl⟩

/-- C2: for an inactive tracker constructed without an explicit `state` dict,
`enter()` fails when reflection is unavailable — either `currentframe()` is
`None` (the explicit `raise Exception(...)`) or the caller frame is `None`
(`AttributeError`; the spec names both `ReflectionUnavailableError`) — and the
tracker remains inactive (`pframe = None`) with its baseline untouched. -/
theorem scope_enter_reflection_unavailable
    (s : Scope V) (env : EnterEnv) (heap : DictRef → Dict V)
    (hf : s.f_locals = none) (hp : s.pframe = none)
    (h : ∀ fr, env.currentFrame = some fr → fr.f_back = none) :
    ((s.enter env heap).2 = .error .exceptionNoFrame ∨
     (s.enter env heap).2 = .error .attributeNone) ∧
    (s.enter env heap).1.pframe = none ∧
    (s.enter env heap).1.starters = s.starters := by
  cases henv : env.currentFrame with
  | none => simp [Scope.enter, hf, henv, hp]
  | some fr =>
    have hb := h fr henv
    simp [Scope.enter, hf, henv, hb]

/-- C2 witness: at both degenerate environments, entering the fresh tracker
fails and leaves it inactive. -/
theorem scope_enter_reflection_unavailable_wit :
    (sFresh.f_locals = none ∧ sFresh.pframe = none ∧
      (∀ fr, envNoCur.currentFrame = some fr → fr.f_back = none) ∧
      (∀ fr, envNoBack.currentFrame = some fr → fr.f_back = none)) ∧
    (((sFresh.enter envNoCur heapXY).2 = .error .exceptionNoFrame ∨
      (sFresh.enter envNoCur heapXY).2 = .error .attributeNone) ∧
     (sFresh.enter envNoCur heapXY).1.pframe = none ∧
     (sFresh.enter envNoCur heapXY).1.starters = sFresh.starters) ∧
    (((sFresh.enter envNoBack heapXY).2 = .error .exceptionNoFrame ∨
      (sFresh.enter envNoBack heapXY).2 = .error .attributeNone) ∧
     (sFresh.enter envNoBack heapXY).1.pframe = none ∧
     (sFresh.enter envNoBack heapXY).1.starters = sFresh.starters) :=
  ⟨⟨rfl, rfl,
    fun fr hfr => by exact absurd hfr (by simp [envNoCur]),
    fun fr hfr => by
      have h : fr = ⟨none⟩ := by simpa [envNoBack] using hfr.symm
      simp [h]⟩,
   scope_enter_reflection_unavailable sFresh envNoCur heapXY rfl rfl
     (fun fr hfr => by exact absurd hfr (by simp [envNoCur])),
   scope_enter_reflection_unavailable sFresh envNoBack heapXY rfl rfl
     (fun fr hfr => by
       have h : fr = ⟨none⟩ := by simpa [envNoBack] using hfr.symm
       simp [h])⟩

/-- C8: `exit()` sets the stored frame/mapping reference `pframe` to `None`
(the absent state), never raises (it is a total function returning no error),
and never suppresses a pending exception: `__exit__` returns falsy, so the
`with` epilogue re-raises the active exception unchanged. -/
theorem scope_exit_releases_and_propagates
    (s : Scope V) (exc : Option ExcInfo) :
    (s.exit exc).1.pframe = none ∧
    (s.exit exc).2 = false ∧
    (runExit s exc).2 = exc := by
  refine ⟨rfl, rfl, ?_⟩
  simp [runExit, Scope.exit]

/-- C10: `exit()` clears only `pframe`; `_starters`, `ignore_`, `extras` and
the constructor-supplied `f_locals` reference are left unchanged, so an
explicit `state` dict is still referenced by the tracker after exit. -/
theorem scope_exit_clears_only_pframe
    (s : Scope V) (exc : Option ExcInfo) :
    (s.exit exc).1.pframe = none ∧
    (s.exit exc).1.starters = s.starters ∧
    (s.exit exc).1.ignore_ = s.ignore_ ∧
    (s.exit exc).1.extras = s.extras ∧
    (s.exit exc).1.f_locals = s.f_locals :=
  ⟨rfl, rfl, rfl, rfl, rfl⟩

/-- A tracker like `Scope(extras='t', state=<dict 0>)`, not yet entered. -/
def sExtras : Scope (Option Nat) := Scope.init (some (.str "t")) (some 0) true

/-- C3: for an active tracker, `diff()` returns exactly the current key set of
the observed mapping minus `_starters`, with `_`-prefixed names excluded
exactly when `ignore_` is true; the method does not mutate the tracker (in
particular not `_starters`), and its result depends only on which keys are
present, never on the bound values (a key bound to `None` is still reported). -/
theorem scope_diff_is_keys_minus_baseline (s : Scope V)
    (heap heap2 : DictRef → Dict V) (L : Dict V) (st : Finset String)
    (hL : s.resolveLocs heap = .ok L) (hst : s.starters = some st)
    (hk : ∀ r, (heap2 r).keys = (heap r).keys) :
    (∃ D, (s.diff heap).2 = .ok D ∧
      ∀ k, k ∈ D ↔ (k ∈ L.keys ∧ k ∉ st ∧
        !(s.ignore_ && startsWithUnderscore k) = true)) ∧
    (s.diff heap).1 = s ∧
    (s.diff heap2).2 = (s.diff heap).2 := by
  refine ⟨⟨(L.keys.filter (fun k => keepName s.ignore_ k = true)) \ st,
      ?_, ?_⟩, ?_, ?_⟩
  · simp [Scope.diff, hL, hst]
  · intro k
    simp [Finset.mem_sdiff, Finset.mem_filter, keepName]
    tauto
  · simp [Scope.diff, hL, hst]
  · rcases hp : s.pframe with _ | pf
    · simp [Scope.resolveLocs, hp] at hL
    · cases pf with
      | frame r =>
        have hL2 : L = heap r := by
          simpa [Scope.resolveLocs, hp] using hL.symm
        simp [Scope.diff, Scope.resolveLocs, hp, hst, hk r, hL2]
      | selfRef =>
        rcases hf : s.f_locals with _ | r
        · simp [Scope.resolveLocs, hp, hf] at hL
        · have hL2 : L = heap r := by
            simpa [Scope.resolveLocs, hp, hf] using hL.symm
          simp [Scope.diff, Scope.resolveLocs, hp, hf, hst, hk r, hL2]

/-- C3 witness: on the active tracker with baseline `{y}` observing
`{x: 1, y: None}`, the characterisation holds; note `y` is absent (baseline)
and `x` is reported even though swapping in all-`None` values changes nothing. -/
theorem scope_diff_is_keys_minus_baseline_wit :
    (sActive.resolveLocs heapXY = .ok dXY ∧ sActive.starters = some {"y"} ∧
      (∀ r, (heapXYnone r).keys = (heapXY r).keys)) ∧
    ((∃ D, (sActive.diff heapXY).2 = .ok D ∧
        ∀ k, k ∈ D ↔ (k ∈ dXY.keys ∧ k ∉ ({"y"} : Finset String) ∧
          !(sActive.ignore_ && startsWithUnderscore k) = true)) ∧
     (sActive.diff heapXY).1 = sActive ∧
     (sActive.diff heapXYnone).2 = (sActive.diff heapXY).2) :=
  ⟨⟨rfl, rfl, fun _ => rfl⟩,
   scope_diff_is_keys_minus_baseline sActive heapXY heapXYnone dXY {"y"}
     rfl rfl (fun _ => rfl)⟩

/-- C4: a successful `enter()` — explicit `state` dict, or reflection with a
caller frame available — sets `_starters` to the observed dict's current key
set merged with `extras` (absent: nothing added; string: singleton added;
collection: unioned), leaves the other constructor fields unchanged, and
returns the tracker itself. -/
theorem scope_enter_sets_baseline (s : Scope V) (env : EnterEnv)
    (heap : DictRef → Dict V) (r : DictRef)
    (h : s.f_locals = some r ∨
      (s.f_locals = none ∧ ∃ fr, env.currentFrame = some fr ∧
        fr.f_back = some r)) :
    (s.enter env heap).2 = .ok (s.enter env heap).1 ∧
    (s.enter env heap).1.starters = some (mergeExtras (heap r).keys s.extras) ∧
    (s.enter env heap).1.ignore_ = s.ignore_ ∧
    (s.enter env heap).1.extras = s.extras ∧
    (s.enter env heap).1.f_locals = s.f_locals ∧
    (∀ K : Finset String, mergeExtras K none = K) ∧
    (∀ (K : Finset String) n, mergeExtras K (some (.str n)) = insert n K) ∧
    (∀ (K c : Finset String), mergeExtras K (some (.coll c)) = K ∪ c) := by
  rcases h with hf | ⟨hf, fr, hcf, hb⟩
  · refine ⟨?_, ?_, ?_, ?_, ?_, fun K => rfl, fun K n => rfl, fun K c => rfl⟩ <;>
      simp [Scope.enter, hf]
  · refine ⟨?_, ?_, ?_, ?_, ?_, fun K => rfl, fun K n => rfl, fun K c => rfl⟩ <;>
      simp [Scope.enter, hf, hcf, hb]

/-- C4 witness: entering `Scope(extras='t', state=<dict 0>)` over the heap
where dict 0 is `{x: 1, y: None}` succeeds, returns the tracker, and sets the
baseline to `{x, y}` plus the extra name `t`. -/
theorem scope_enter_sets_baseline_wit :
    (sExtras.f_locals = some 0 ∨
      (sExtras.f_locals = none ∧ ∃ fr, envBack0.currentFrame = some fr ∧
        fr.f_back = some 0)) ∧
    ((sExtras.enter envBack0 heapXY).2 = .ok (sExtras.enter envBack0 heapXY).1 ∧
     (sExtras.enter envBack0 heapXY).1.starters
        = some (mergeExtras (heapXY 0).keys sExtras.extras) ∧
     (sExtras.enter envBack0 heapXY).1.ignore_ = sExtras.ignore_ ∧
     (sExtras.enter envBack0 heapXY).1.extras = sExtras.extras ∧
     (sExtras.enter envBack0 heapXY).1.f_locals = sExtras.f_locals ∧
     (∀ K : Finset String, mergeExtras K none = K) ∧
     (∀ (K : Finset String) n, mergeExtras K (some (.str n)) = insert n K) ∧
     (∀ (K c : Finset String), mergeExtras K (some (.coll c)) = K ∪ c)) :=
  ⟨Or.inl rfl, scope_enter_sets_baseline sExtras envBack0 heapXY 0 (Or.inl rfl)⟩

/-- C5: for an active tracker, `refresh()` (source name `update`) succeeds and
replaces `_starters` with the union of the previous baseline and the observed
dict's current key set — so the baseline never shrinks — and any name already
in the baseline is classified as not new by every subsequent `diff()`, at any
later state of the observed mapping (in particular after a delete/re-add). -/
theorem scope_update_merges_forward (s : Scope V)
    (heap : DictRef → Dict V) (L : Dict V) (st : Finset String)
    (hL : s.resolveLocs heap = .ok L) (hst : s.starters = some st) :
    (s.update heap).2 = .ok () ∧
    (s.update heap).1.starters = some (st ∪ L.keys) ∧
    (s.update heap).1.pframe = s.pframe ∧
    st ⊆ st ∪ L.keys ∧
    (∀ n (heap2 : DictRef → Dict V) (D : Finset String),
      n ∈ st → ((s.update heap).1.diff heap2).2 = .ok D → n ∉ D) := by
  have hs1 : (s.update heap).1 = { s with starters := some (st ∪ L.keys) } := by
    simp [Scope.update, hL, hst]
  refine ⟨by simp [Scope.update, hL, hst], by rw [hs1], by rw [hs1],
    Finset.subset_union_left, ?_⟩
  intro n heap2 D hn hD
  rw [hs1] at hD
  cases hres : ({ s with starters := some (st ∪ L.keys) } : Scope V).resolveLocs
      heap2 with
  | error e => simp [Scope.diff, hres] at hD
  | ok L2 =>
    simp only [Scope.diff, hres] at hD
    have : D = (L2.keys.filter (fun k => keepName s.ignore_ k = true))
        \ (st ∪ L.keys) := by
      simpa using hD.symm
    subst this
    simp only [Finset.mem_sdiff, Finset.mem_union, not_and, not_not]
    intro _
    exact Or.inl hn

/-- C5 witness: refreshing the active tracker with baseline `{y}` over
`{x: 1, y: None}` gives baseline `{y, x}`, and `y` stays non-new afterwards. -/
theorem scope_update_merges_forward_wit :
    (sActive.resolveLocs heapXY = .ok dXY ∧ sActive.starters = some {"y"}) ∧
    ((sActive.update heapXY).2 = .ok () ∧
     (sActive.update heapXY).1.starters = some ({"y"} ∪ dXY.keys) ∧
     (sActive.update heapXY).1.pframe = sActive.pframe ∧
     ({"y"} : Finset String) ⊆ {"y"} ∪ dXY.keys ∧
     (∀ n (heap2 : DictRef → Dict (Option Nat)) (D : Finset String),
       n ∈ ({"y"} : Finset String) →
       ((sActive.update heapXY).1.diff heap2).2 = .ok D → n ∉ D)) :=
  ⟨⟨rfl, rfl⟩, scope_update_merges_forward sActive heapXY dXY {"y"} rfl rfl⟩

/-- C6: for an active tracker, `refresh()` is idempotent: a second `update`
against the unchanged mapping succeeds and leaves the tracker state — hence
every subsequent `diff()` at any later mapping state — identical to one call. -/
theorem scope_update_idempotent (s : Scope V)
    (heap : DictRef → Dict V) (L : Dict V) (st : Finset String)
    (hL : s.resolveLocs heap = .ok L) (hst : s.starters = some st) :
    ((s.update heap).1.update heap).1 = (s.update heap).1 ∧
    ((s.update heap).1.update heap).2 = .ok () ∧
    ∀ heap2, (((s.update heap).1.update heap).1.diff heap2)
      = ((s.update heap).1.diff heap2) := by
  have hs1 : (s.update heap).1 = { s with starters := some (st ∪ L.keys) } := by
    simp [Scope.update, hL, hst]
  have hres : ({ s with starters := some (st ∪ L.keys) } : Scope V).resolveLocs
      heap = .ok L := hL
  have hs2 : (({ s with starters := some (st ∪ L.keys) } : Scope V).update
      heap) = ({ s with starters := some (st ∪ L.keys) }, .ok ()) := by
    simp [Scope.update, hres, Finset.union_assoc]
  refine ⟨?_, ?_, ?_⟩
  · rw [hs1, hs2]
  · rw [hs1, hs2]
  · intro heap2
    rw [hs1, hs2]

/-- C6 witness: two consecutive refreshes of the active tracker over
`{x: 1, y: None}` equal one. -/
theorem scope_update_idempotent_wit :
    (sActive.resolveLocs heapXY = .ok dXY ∧ sActive.starters = some {"y"}) ∧
    (((sActive.update heapXY).1.update heapXY).1 = (sActive.update heapXY).1 ∧
     ((sActive.update heapXY).1.update heapXY).2 = .ok () ∧
     ∀ heap2, (((sActive.update heapXY).1.update heapXY).1.diff heap2)
       = ((sActive.update heapXY).1.diff heap2)) :=
  ⟨⟨rfl, rfl⟩, scope_update_idempotent sActive heapXY dXY {"y"} rfl rfl⟩

/-- Helper shared by the `items` claims: at one state of the observed mapping,
the `items` traversal succeeds exactly when `diff` does, its names are exactly
the `diff` set, and every yielded value is the dict's current value of that
name. -/
theorem items_names_match_diff (s : Scope V) (heap : DictRef → Dict V)
    (L : Dict V) (st : Finset String)
    (hL : s.resolveLocs heap = .ok L) (hst : s.starters = some st) :
    ∃ l D, (s.items heap).2 = .ok l ∧ (s.diff heap).2 = .ok D ∧
      (l.map Prod.fst).toFinset = D ∧ (∀ p ∈ l, p.2 = L.get p.1) := by
  refine ⟨((L.keys \ st).sort (· ≤ ·)).filterMap
      (fun k => if keepName s.ignore_ k then some (k, L.get k) else none),
    (L.keys.filter (fun k => keepName s.ignore_ k = true)) \ st,
    by simp [Scope.items, hL, hst],
    by simp [Scope.diff, hL, hst], ?_, ?_⟩
  · ext k
    rw [List.mem_toFinset, List.mem_map]
    constructor
    · rintro ⟨p, hp, hpk⟩
      rw [List.mem_filterMap] at hp
      obtain ⟨a, ha, hf⟩ := hp
      rw [Finset.mem_sort, Finset.mem_sdiff] at ha
      by_cases hkeep : keepName s.ignore_ a = true
      · rw [if_pos hkeep] at hf
        have hpa : p = (a, L.get a) := (Option.some.inj hf).symm
        have hak : a = k := by rw [hpa] at hpk; exact hpk
        subst hak
        rw [Finset.mem_sdiff, Finset.mem_filter]
        exact ⟨⟨ha.1, hkeep⟩, ha.2⟩
      · rw [if_neg hkeep] at hf
        cases hf
    · intro hk
      rw [Finset.mem_sdiff, Finset.mem_filter] at hk
      refine ⟨(k, L.get k), ?_, rfl⟩
      rw [List.mem_filterMap]
      exact ⟨k, by rw [Finset.mem_sort, Finset.mem_sdiff]; exact ⟨hk.1.1, hk.2⟩,
        by rw [if_pos hk.1.2]⟩
  · intro p hp
    rw [List.mem_filterMap] at hp
    obtain ⟨a, ha, hf⟩ := hp
    by_cases hkeep : keepName s.ignore_ a = true
    · rw [if_pos hkeep] at hf
      have hpa : p = (a, L.get a) := (Option.some.inj hf).symm
      rw [hpa]
    · rw [if_neg hkeep] at hf
      cases hf

/-- C7: for an active tracker, the `items` traversal is a finite list of
(name, value) pairs whose names are exactly the `diff()` set, each value being
the observed dict's current value of that name (no pre-copied value snapshot);
and two `items()` calls at different mapping states can return different
values for the same name. -/
theorem scope_items_covers_diff_fresh_values (s : Scope V)
    (heap : DictRef → Dict V) (L : Dict V) (st : Finset String)
    (hL : s.resolveLocs heap = .ok L) (hst : s.starters = some st) :
    (∃ l D, (s.items heap).2 = .ok l ∧ (s.diff heap).2 = .ok D ∧
      (l.map Prod.fst).toFinset = D ∧ (∀ p ∈ l, p.2 = L.get p.1)) ∧
    (∃ (t : Scope (Option Nat)) (h1 h2 : DictRef → Dict (Option Nat))
        (k : String) (v1 v2 : Option Nat)
        (l1 l2 : List (String × Option Nat)),
      v1 ≠ v2 ∧ (t.items h1).2 = .ok l1 ∧ (t.items h2).2 = .ok l2 ∧
      (k, v1) ∈ l1 ∧ (k, v2) ∈ l2) := by
  refine ⟨items_names_match_diff s heap L st hL hst,
    sActive, heapXY, heapX7, "x", some 1, some 7,
    [("x", some 1)], [("x", some 7)], by decide, ?_, ?_,
    List.mem_singleton.mpr rfl, List.mem_singleton.mpr rfl⟩
  · have h1 : (sActive.items heapXY).2
        = .ok (((dXY.keys \ {"y"}).sort (· ≤ ·)).filterMap
            (fun k => if keepName true k then some (k, dXY.get k)
              else none)) := rfl
    have hsd : (dXY.keys \ ({"y"} : Finset String)) = {"x"} := by decide
    rw [h1, hsd, Finset.sort_singleton]
    exact congrArg Except.ok (by decide)
  · have h1 : (sActive.items heapX7).2
        = .ok (((dX7.keys \ {"y"}).sort (· ≤ ·)).filterMap
            (fun k => if keepName true k then some (k, dX7.get k)
              else none)) := rfl
    have hsd : (dX7.keys \ ({"y"} : Finset String)) = {"x"} := by decide
    rw [h1, hsd, Finset.sort_singleton]
    exact congrArg Except.ok (by decide)

/-- C7 witness: the active tracker over `{x: 1, y: None}` with baseline `{y}`. -/
theorem scope_items_covers_diff_fresh_values_wit :
    (sActive.resolveLocs heapXY = .ok dXY ∧ sActive.starters = some {"y"}) ∧
    ((∃ l D, (sActive.items heapXY).2 = .ok l ∧
        (sActive.diff heapXY).2 = .ok D ∧
        (l.map Prod.fst).toFinset = D ∧ (∀ p ∈ l, p.2 = dXY.get p.1)) ∧
     (∃ (t : Scope (Option Nat)) (h1 h2 : DictRef → Dict (Option Nat))
         (k : String) (v1 v2 : Option Nat)
         (l1 l2 : List (String × Option Nat)),
       v1 ≠ v2 ∧ (t.items h1).2 = .ok l1 ∧ (t.items h2).2 = .ok l2 ∧
       (k, v1) ∈ l1 ∧ (k, v2) ∈ l2)) :=
  ⟨⟨rfl, rfl⟩,
   scope_items_covers_diff_fresh_values sActive heapXY dXY {"y"} rfl rfl⟩

/-- C9: whenever `items()` and `diff()` both succeed against the same state of
the observed mapping, the set of names yielded by the full `items` traversal
equals the `diff()` set: both apply the same baseline difference and the same
underscore filter, only in opposite orders. -/
theorem scope_items_names_equal_diff (s : Scope V)
    (heap : DictRef → Dict V) (l : List (String × V)) (D : Finset String)
    (hl : (s.items heap).2 = .ok l) (hD : (s.diff heap).2 = .ok D) :
    (l.map Prod.fst).toFinset = D := by
  cases hres : s.resolveLocs heap with
  | error e => simp [Scope.items, hres] at hl
  | ok L =>
    cases hstt : s.starters with
    | none => simp [Scope.items, hres, hstt] at hl
    | some st =>
      obtain ⟨l2, D2, hl2, hD2, hn, _⟩ :=
        items_names_match_diff s heap L st hres hstt
      rw [hl] at hl2
      rw [hD] at hD2
      have h1 : l = l2 := by injection hl2
      have h2 : D = D2 := by injection hD2
      rw [h1, h2]
      exact hn

/-- C9 witness: over `{x: 1, y: None}` with baseline `{y}`, items yields
`[(x, 1)]` and diff returns `{x}`. -/
theorem scope_items_names_equal_diff_wit :
    ((sActive.items heapXY).2 = .ok [("x", some 1)] ∧
     (sActive.diff heapXY).2 = .ok {"x"}) ∧
    (([("x", some (1 : Nat))].map Prod.fst).toFinset
      = ({"x"} : Finset String)) := by
  have hitems : (sActive.items heapXY).2 = .ok [("x", some 1)] := by
    have h1 : (sActive.items heapXY).2
        = .ok (((dXY.keys \ {"y"}).sort (· ≤ ·)).filterMap
            (fun k => if keepName true k then some (k, dXY.get k)
              else none)) := rfl
    have hsd : (dXY.keys \ ({"y"} : Finset String)) = {"x"} := by decide
    rw [h1, hsd, Finset.sort_singleton]
    exact congrArg Except.ok (by decide)
  have hdiff : (sActive.diff heapXY).2 = .ok {"x"} := by
    have h1 : (sActive.diff heapXY).2
        = .ok ((dXY.keys.filter (fun k => keepName true k = true))
            \ {"y"}) := rfl
    rw [h1]
    exact congrArg Except.ok (by decide)
  exact ⟨⟨hitems, hdiff⟩,
    scope_items_names_equal_diff sActive heapXY [("x", some 1)] {"x"}
      hitems hdiff⟩
